import Mathlib

/-!
Shallow embedding of the pgcplus core: the Gemini document-indexing pipeline
(`src/lib/gemini/document-indexing.ts`), the file-search store registry
(`src/lib/gemini/file-search-store.ts`), the table-storage CRUD layer and the
document API routes, and the citation-resolution engine of
`src/app/api/search/route.ts`.  JavaScript optional fields are `Option String`;
the JS `a || b` fallback (which treats the empty string as falsy) is `jsOrS`.
-/

namespace PgcPlus

/-- JS `a || b` on an optional string: `undefined` and `""` are falsy. -/
def jsOrS : Option String → String → String
  | some s, d => if s = "" then d else s
  | none, d => d

/-- JS truthiness of an optional string. -/
def jsTruthy : Option String → Bool
  | some s => s != ""
  | none => false

/-- Character-level lower-casing (ASCII), the effect of JS `toLowerCase()`
on the strings this codebase handles. -/
def toLowerStr (s : String) : String :=
  String.mk (s.data.map Char.toLower)

/-- JS `s.split('.').pop()`: the segment after the last dot, the whole
string when it contains no dot. -/
def lastSegmentAux : List Char → List Char → List Char
  | [], cur => cur
  | ch :: rest, cur =>
    if ch = '.' then lastSegmentAux rest [] else lastSegmentAux rest (cur ++ [ch])

/-- The last dot-separated segment of a string. -/
def lastDotSegment (s : String) : String :=
  String.mk (lastSegmentAux s.data [])

/-- Suffix test on the underlying character lists (JS `endsWith`). -/
def strEndsWith (s suffix : String) : Bool :=
  suffix.data.isSuffixOf s.data

/-- Remove the last `n` characters (JS-style, like `String.dropRight`). -/
def dropRightStr (s : String) (n : Nat) : String :=
  String.mk (s.data.take (s.data.length - n))

/-! ## document-indexing.ts -/

/-- `getMimeType` from `src/lib/gemini/document-indexing.ts`:
`fileName.split('.').pop()?.toLowerCase()` looked up in the closed mime map,
defaulting to `application/octet-stream`. -/
def getMimeType (fileName : String) : String :=
  let extension := toLowerStr (lastDotSegment fileName)
  if extension = "pdf" then "application/pdf"
  else if extension = "docx" then
    "application/vnd.openxmlformats-officedocument.wordprocessingml.document"
  else if extension = "doc" then "application/msword"
  else if extension = "txt" then "text/plain"
  else "application/octet-stream"

/-- A pollable Gemini long-running operation, as read defensively by
`uploadDocumentToGemini`: `done`, an optional error payload (its `message`),
and the optional `name` fields on the response object and on the operation
itself. -/
structure Operation where
  done : Bool
  error : Option String
  responseName : Option String
  name : Option String
deriving DecidableEq, Repr

/-- `maxAttempts` constant of the poll loop (60 attempts). -/
def maxAttempts : Nat := 60

/-- The fixed wait between poll attempts, in milliseconds (`setTimeout(..., 5000)`). -/
def pollIntervalMs : Nat := 5000

/-- One pass of the JS `while (!op.done && attempts < maxAttempts)` loop,
structurally recursive on the remaining fuel `maxAttempts - attempts`.
Returns the final operation together with the number of `operations.get`
calls performed. -/
def pollGo (get : Operation → Operation) : Nat → Operation → Nat → Operation × Nat
  | 0, op, attempts => (op, attempts)
  | Nat.succ fuel, op, attempts =>
    if op.done then (op, attempts) else pollGo get fuel (get op) (attempts + 1)

/-- The poll loop of `uploadDocumentToGemini`, started at a given attempt
count. -/
def pollLoop (get : Operation → Operation) (op : Operation) (attempts : Nat) :
    Operation × Nat :=
  pollGo get (maxAttempts - attempts) op attempts

/-- Error message thrown when the poll ceiling is reached without `done`. -/
def timeoutMsg : String :=
  "Gemini indexing timeout - operation did not complete in 5 minutes"

/-- The outcome of `uploadDocumentToGemini` after the upload call returned the
initial operation `op0`: poll to completion, then fail on timeout or error
payload, otherwise extract the document name with the
`response?.name || operation.name || 'unknown'` fallback chain. -/
def uploadOutcome (get : Operation → Operation) (op0 : Operation) :
    Except String String :=
  let fin := (pollLoop get op0 0).1
  if fin.done = false then Except.error timeoutMsg
  else
    match fin.error with
    | some msg => Except.error ("Gemini indexing failed: " ++ msg)
    | none => Except.ok (jsOrS fin.responseName (jsOrS fin.name "unknown"))

/-- `deleteDocumentFromGemini`: the service delete call is wrapped in
`try/catch`; every failure is logged and swallowed, so the function always
returns successfully. `svc` is the external `client.files.delete` call. -/
def deleteDocumentFromGemini (svc : String → Except String Unit)
    (geminiDocumentId : String) : Except String Unit :=
  match svc geminiDocumentId with
  | Except.ok _ => Except.ok ()
  | Except.error _ => Except.ok ()

/-! ## table-storage.ts data model -/

/-- Document lifecycle status (`'processing' | 'ready' | 'failed'`). -/
inductive DocStatus where
  | processing
  | ready
  | failed
deriving DecidableEq, Repr

/-- A document record from `src/lib/db/table-storage.ts` (identity and
indexing-relevant fields; partition/row keys and timestamps omitted). -/
structure Document where
  id : String
  title : String
  category : String
  version : String
  status : DocStatus
  storageUri : String
  blobName : String
  fileSize : Option String
  fileType : Option String
  geminiDocumentId : Option String
  geminiFileSearchStoreName : Option String
  errorMessage : Option String
deriving DecidableEq, Repr

/-- `updateDocumentStatus` (crud) over a table modelled as a list of records:
fetch the entity by id (throws when absent), merge the `status` and
`errorMessage` fields, and write it back. -/
def updateDocumentStatus (table : List Document) (id : String)
    (status : DocStatus) (errorMessage : Option String) :
    Except String (List Document × Document) :=
  match table.find? (fun d => d.id == id) with
  | none => Except.error "EntityNotFound"
  | some d =>
    let d' : Document := { d with status := status, errorMessage := errorMessage }
    Except.ok (table.map (fun e => if e.id == id then d' else e), d')

/-- Result of the PATCH `/api/documents/[id]` handler: a 400 on an invalid
status, otherwise the updated table and document (or the update error). -/
inductive PatchResult where
  | badRequest
  | ok (table : List Document) (doc : Document)
  | updateError (msg : String)
deriving DecidableEq, Repr

/-- Parse the status string of a PATCH body (only the three allowed values). -/
def parseStatus : String → Option DocStatus
  | "processing" => some DocStatus.processing
  | "ready" => some DocStatus.ready
  | "failed" => some DocStatus.failed
  | _ => none

/-- The PATCH `/api/documents/[id]` handler: reject a missing or invalid
`status` with 400, otherwise call `updateDocumentStatus` unconditionally —
the current status of the document is never consulted. -/
def patchDocument (table : List Document) (id : String)
    (status : Option String) (errorMessage : Option String) : PatchResult :=
  match status with
  | none => PatchResult.badRequest
  | some s =>
    match parseStatus s with
    | none => PatchResult.badRequest
    | some st =>
      match updateDocumentStatus table id st errorMessage with
      | Except.error e => PatchResult.updateError e
      | Except.ok (t, d) => PatchResult.ok t d

/-! ## azure-storage.ts and the crud delete -/

/-- `deleteDocument` from `src/lib/storage/azure-storage.ts`: it calls
`blockBlobClient.deleteIfExists()`, which removes the blob when present and
succeeds without error when absent, so the operation is total on the blob
store (modelled as the list of existing blob names). -/
def azureDeleteDocument (blobs : List String) (blobName : String) :
    Except String (List String) :=
  Except.ok (blobs.filter (fun b => b != blobName))

/-- The two persistent stores touched by the crud delete: blob names in the
object store and document records in the metadata table. -/
structure Stores where
  blobs : List String
  table : List Document
deriving DecidableEq, Repr

/-- `deleteDocument` from `src/lib/documents/crud.ts`: look up the record,
delete its blob and (when a truthy `geminiDocumentId` is present) its Gemini
index entry, then delete the metadata record.  Deleting a missing record
makes the table client throw. -/
def deleteDocumentCrud (svc : String → Except String Unit) (st : Stores)
    (id : String) : Except String Stores :=
  match st.table.find? (fun d => d.id == id) with
  | none => Except.error "EntityNotFound"
  | some doc =>
    match azureDeleteDocument st.blobs doc.blobName with
    | Except.error e => Except.error e
    | Except.ok blobs' =>
      let geminiStep : Except String Unit :=
        if jsTruthy doc.geminiDocumentId then
          deleteDocumentFromGemini svc ((doc.geminiDocumentId).getD "")
        else Except.ok ()
      match geminiStep with
      | Except.error e => Except.error e
      | Except.ok _ =>
        Except.ok { blobs := blobs', table := st.table.filter (fun d => d.id != id) }

/-! ## file-search-store.ts registry -/

/-- State visible to `getOrCreateFileSearchStore`: the module-level
`cachedStoreName`, the fixed-key registration record in table storage (its
`storeName` when present), and the number of `fileSearchStores.create`
invocations made so far. -/
structure RegistryState where
  cache : Option String
  table : Option String
  createCalls : Nat
deriving DecidableEq, Repr

/-- One call to `getOrCreateFileSearchStore`: return the cached name, else
read the persisted record (caching it), else create a store (the k-th create
call returns `names k`), failing loudly when the service returns no usable
name, and otherwise persisting and caching the new handle. -/
def getOrCreateStep (names : Nat → String) (st : RegistryState) :
    Except String String × RegistryState :=
  match st.cache with
  | some s => (Except.ok s, st)
  | none =>
    match st.table with
    | some s => (Except.ok s, { st with cache := some s })
    | none =>
      let name := names st.createCalls
      if name = "" then
        (Except.error "Failed to create File Search Store - no name returned",
         { st with createCalls := st.createCalls + 1 })
      else
        (Except.ok name,
         { cache := some name, table := some name,
           createCalls := st.createCalls + 1 })

/-- A sequence of `n` calls to `getOrCreateFileSearchStore` in one process,
collecting each call's result. -/
def registryRun (names : Nat → String) :
    Nat → RegistryState → List (Except String String) × RegistryState
  | 0, st => ([], st)
  | Nat.succ n, st =>
    let r := getOrCreateStep names st
    let rest := registryRun names n r.2
    (r.1 :: rest.1, rest.2)

/-! ## Citation resolution (`src/app/api/search/route.ts`) -/

/-- A grounding chunk, read defensively from the Gemini response: the
possible locations of the file reference, the possible title fields, and the
snippet text. -/
structure Chunk where
  webUri : Option String
  retrievedContextUri : Option String
  webUrl : Option String
  retrievedContextUrl : Option String
  webTitle : Option String
  retrievedContextTitle : Option String
  retrievedContextText : Option String
deriving DecidableEq, Repr

/-- `geminiFileId`: `chunk.web?.uri || chunk.retrievedContext?.uri ||
chunk.web?.url || chunk.retrievedContext?.url || ''`. -/
def geminiFileId (c : Chunk) : String :=
  jsOrS c.webUri (jsOrS c.retrievedContextUri (jsOrS c.webUrl (jsOrS c.retrievedContextUrl "")))

/-- `chunkTitle`: `chunk.web?.title || chunk.retrievedContext?.title || ''`. -/
def chunkTitle (c : Chunk) : String :=
  jsOrS c.webTitle (jsOrS c.retrievedContextTitle "")

/-- `title.replace(/\.(pdf|docx?|txt)$/i, '')`: strip one trailing
`.pdf`/`.doc`/`.docx`/`.txt` extension, case-insensitively. -/
def stripTrailingExt (s : String) : String :=
  let ls := toLowerStr s
  if strEndsWith ls ".docx" then dropRightStr s 5
  else if strEndsWith ls ".pdf" then dropRightStr s 4
  else if strEndsWith ls ".doc" then dropRightStr s 4
  else if strEndsWith ls ".txt" then dropRightStr s 4
  else s

/-- The matched-document search of the search route: first a
`geminiDocumentId` equality match, then — only when the chunk title is
truthy — the exact, case-insensitive, and extension-stripped title
strategies, in that order. -/
def findMatchedDoc (docs : List Document) (fid t : String) : Option Document :=
  match docs.find? (fun d => d.geminiDocumentId == some fid) with
  | some d => some d
  | none =>
    if t = "" then none
    else
      match docs.find? (fun d => d.title == t) with
      | some d => some d
      | none =>
        match docs.find? (fun d => toLowerStr d.title == toLowerStr t) with
        | some d => some d
        | none =>
          docs.find? (fun d =>
            toLowerStr (stripTrailingExt d.title) == toLowerStr (stripTrailingExt t))

/-- `documentId = matchedDoc?.id || geminiFileId`. -/
def docIdOf (docs : List Document) (c : Chunk) : String :=
  match findMatchedDoc docs (geminiFileId c) (chunkTitle c) with
  | some d => jsOrS (some d.id) (geminiFileId c)
  | none => geminiFileId c

/-- Citation title: `matchedDoc?.title || chunk.web?.title ||
chunk.retrievedContext?.title || 'Unknown Document'`. -/
def citTitleOf (docs : List Document) (c : Chunk) : String :=
  match findMatchedDoc docs (geminiFileId c) (chunkTitle c) with
  | some d => jsOrS (some d.title) (jsOrS c.webTitle (jsOrS c.retrievedContextTitle "Unknown Document"))
  | none => jsOrS c.webTitle (jsOrS c.retrievedContextTitle "Unknown Document")

/-- Citation snippet: `chunk.retrievedContext?.text || ''`. -/
def citSnippetOf (c : Chunk) : String :=
  jsOrS c.retrievedContextText ""

/-- One entry of the insertion-ordered `citationMap`. -/
structure CitEntry where
  documentId : String
  title : String
  snippet : String
  chunkIndices : List Nat
deriving DecidableEq, Repr

/-- One step of the `groundingChunks.forEach` loop: either append the chunk
index to the existing entry for its document id, or append a fresh entry. -/
def insertChunk (docs : List Document) (acc : List CitEntry) (c : Chunk)
    (i : Nat) : List CitEntry :=
  let key := docIdOf docs c
  if acc.any (fun e => e.documentId == key) then
    acc.map (fun e =>
      if e.documentId == key then
        { e with chunkIndices := e.chunkIndices ++ [i] }
      else e)
  else
    acc ++ [{ documentId := key, title := citTitleOf docs c,
              snippet := citSnippetOf c, chunkIndices := [i] }]

/-- Fold the chunks, in original order, into the citation map (kept as an
insertion-ordered list); `i` is the index of the first chunk of `cs`. -/
def resolveAux (docs : List Document) : List Chunk → Nat → List CitEntry → List CitEntry
  | [], _, acc => acc
  | c :: cs, i, acc => resolveAux docs cs (i + 1) (insertChunk docs acc c i)

/-- The deduplicated citation list of a search response, in order of first
appearance; the 1-based citation index of an entry is its position + 1. -/
def resolveCitations (docs : List Document) (frags : List Chunk) : List CitEntry :=
  resolveAux docs frags 0 []

/-- Find the 1-based citation index of the entry whose `chunkIndices`
contains `k`, scanning positions from `pos`. -/
def remapAux : List CitEntry → Nat → Nat → Option Nat
  | [], _, _ => none
  | e :: es, k, pos => if k ∈ e.chunkIndices then some pos else remapAux es k (pos + 1)

/-- `chunkToCitationMap` of the search route as a function: the deduplicated
citation number assigned to original fragment position `k`. -/
def chunkToCitation (docs : List Document) (frags : List Chunk) (k : Nat) :
    Option Nat :=
  remapAux (resolveCitations docs frags) k 1

/-! ## Ingest pipeline composition (`uploadAndCreateDocument`) -/

/-- The record created at step 2 of `uploadAndCreateDocument`: status
`processing`, no retrieval handles, no error. -/
def initialDocument (id title category version uri blobName : String)
    (fileSize fileType : String) : Document :=
  { id := id, title := title, category := category, version := version,
    status := DocStatus.processing, storageUri := uri, blobName := blobName,
    fileSize := some fileSize, fileType := some fileType,
    geminiDocumentId := none, geminiFileSearchStoreName := none,
    errorMessage := none }

/-- Steps 4–6 of `uploadAndCreateDocument`: on a successful Gemini upload the
record gets the returned handles and status `ready`; on any failure it gets
status `failed` and a `Gemini upload failed: ...` message. -/
def ingestFinal (get : Operation → Operation) (op0 : Operation)
    (storeName : String) (doc : Document) : Document :=
  match uploadOutcome get op0 with
  | Except.ok gid =>
    { doc with geminiDocumentId := some gid,
               geminiFileSearchStoreName := some storeName,
               status := DocStatus.ready }
  | Except.error e =>
    { doc with status := DocStatus.failed,
               errorMessage := some ("Gemini upload failed: " ++ e) }

/-- The status sequence a document passes through during one ingest. -/
def ingestStatusTrace (get : Operation → Operation) (op0 : Operation)
    (storeName : String) (doc : Document) : List DocStatus :=
  [DocStatus.processing, (ingestFinal get op0 storeName doc).status]

/-! ## Spec-side definitions (for comparison against the code)

These follow the wording of the specification, not the source, and are
compared with the source-derived definitions in the refinement theorems. -/

/-- Spec strategy 1: exact match of the fragment's external reference against
a document's stored retrieval handle. -/
def specHandleMatch (docs : List Document) (fid : String) : Option Document :=
  docs.find? (fun d => d.geminiDocumentId == some fid)

/-- Spec strategy 2: if the fragment carries a title, exact case-sensitive
title match. -/
def specExactTitleMatch (docs : List Document) (t : String) : Option Document :=
  if t = "" then none else docs.find? (fun d => d.title == t)

/-- Spec strategy 3: if the fragment carries a title, case-insensitive title
match. -/
def specCiTitleMatch (docs : List Document) (t : String) : Option Document :=
  if t = "" then none else docs.find? (fun d => toLowerStr d.title == toLowerStr t)

/-- Spec strategy 4: if the fragment carries a title, title match after
stripping a trailing `.pdf`/`.doc`/`.docx`/`.txt` suffix (case-insensitive)
from both sides. -/
def specExtTitleMatch (docs : List Document) (t : String) : Option Document :=
  if t = "" then none
  else docs.find? (fun d =>
    toLowerStr (stripTrailingExt d.title) == toLowerStr (stripTrailingExt t))

/-- The spec's strict priority order over the four strategies, stopping at
the first success. -/
def specFirstMatch (docs : List Document) (fid t : String) : Option Document :=
  match specHandleMatch docs fid with
  | some d => some d
  | none =>
    match specExactTitleMatch docs t with
    | some d => some d
    | none =>
      match specCiTitleMatch docs t with
      | some d => some d
      | none => specExtTitleMatch docs t

/-- Spec-side notion of the file-name suffix for the content-type mapping:
the part after the last dot, absent when the name contains no dot. -/
def specSuffix (fileName : String) : Option String :=
  if fileName.data.contains '.' then some (lastDotSegment fileName) else none

/-- The claim's closed content-type mapping on the (optional) suffix: an
absent or unrecognised suffix maps to `application/octet-stream`. -/
def specMimeOfSuffix : Option String → String
  | none => "application/octet-stream"
  | some e =>
    let el := toLowerStr e
    if el = "pdf" then "application/pdf"
    else if el = "docx" then
      "application/vnd.openxmlformats-officedocument.wordprocessingml.document"
    else if el = "doc" then "application/msword"
    else if el = "txt" then "text/plain"
    else "application/octet-stream"

/-- The closed suffix-to-content-type table of the amended claim. -/
def mimeTable : List (String × String) :=
  [("pdf", "application/pdf"),
   ("docx", "application/vnd.openxmlformats-officedocument.wordprocessingml.document"),
   ("doc", "application/msword"),
   ("txt", "text/plain")]

/-- Amended spec mapping: take the last dot-separated segment of the file
name (the whole name when it contains no dot), lower-case it, and look it up
in the closed table, defaulting to `application/octet-stream`. -/
def amendedMimeOf (fileName : String) : String :=
  let seg := toLowerStr (lastDotSegment fileName)
  match mimeTable.lookup seg with
  | some m => m
  | none => "application/octet-stream"

/-- The keys (document ids) of a citation list. -/
def keysOf (es : List CitEntry) : List String :=
  es.map (fun e => e.documentId)

/-- Status back to its wire string, inverse of `parseStatus`. -/
def statusToString : DocStatus → String
  | DocStatus.processing => "processing"
  | DocStatus.ready => "ready"
  | DocStatus.failed => "failed"

/-! ## Concrete example inputs used by the witnesses -/

/-- A ready document titled "Leave Policy". -/
def leaveDoc : Document :=
  { id := "1", title := "Leave Policy", category := "HR", version := "1",
    status := DocStatus.ready, storageUri := "uri", blobName := "blob1",
    fileSize := some "1 KB", fileType := some "docx",
    geminiDocumentId := some "files/abc", geminiFileSearchStoreName := none,
    errorMessage := none }

/-- The same record after the PATCH handler set it to `failed`. -/
def leaveDocFailed : Document :=
  { leaveDoc with status := DocStatus.failed, errorMessage := none }

/-- A pending operation with no result fields. -/
def opPending : Operation :=
  { done := false, error := none, responseName := none, name := none }

/-- A completed operation carrying an error payload. -/
def opErrored : Operation :=
  { done := true, error := some "service says no", responseName := none, name := none }

/-- A completed operation with no error and no usable name fields. -/
def opDoneNameless : Operation :=
  { done := true, error := none, responseName := some "", name := none }

/-- A chunk whose only reference is the uri "A". -/
def chunkA : Chunk :=
  { webUri := some "A", retrievedContextUri := none, webUrl := none,
    retrievedContextUrl := none, webTitle := none, retrievedContextTitle := none,
    retrievedContextText := some "snippet A" }

/-- A chunk whose only reference is the uri "B". -/
def chunkB : Chunk :=
  { webUri := some "B", retrievedContextUri := none, webUrl := none,
    retrievedContextUrl := none, webTitle := none, retrievedContextTitle := none,
    retrievedContextText := some "snippet B" }

/-- A chunk with every reference and title field absent. -/
def chunkBlank : Chunk :=
  { webUri := none, retrievedContextUri := none, webUrl := none,
    retrievedContextUrl := none, webTitle := none, retrievedContextTitle := none,
    retrievedContextText := none }

/-! ## Helper lemmas -/

theorem jsOrS_of_not_truthy {o : Option String} {d : String}
    (h : jsTruthy o = false) : jsOrS o d = d := by
  cases o with
  | none => rfl
  | some s =>
    have hs : s = "" := by simpa [jsTruthy] using h
    simp [jsOrS, hs]

theorem docIdOf_of_no_match {docs : List Document} {c : Chunk}
    (h : findMatchedDoc docs (geminiFileId c) (chunkTitle c) = none) :
    docIdOf docs c = geminiFileId c := by
  simp [docIdOf, h]

theorem citTitleOf_of_no_match {docs : List Document} {c : Chunk}
    (h : findMatchedDoc docs (geminiFileId c) (chunkTitle c) = none) :
    citTitleOf docs c = jsOrS c.webTitle (jsOrS c.retrievedContextTitle "Unknown Document") := by
  simp [citTitleOf, h]

theorem pollGo_never_done {get : Operation → Operation}
    (hget : ∀ o, (get o).done = false) :
    ∀ (fuel : Nat) (op : Operation) (a : Nat), op.done = false →
      (pollGo get fuel op a).1.done = false ∧ (pollGo get fuel op a).2 = a + fuel := by
  intro fuel
  induction fuel with
  | zero => intro op a hop; simp [pollGo, hop]
  | succ n ih =>
    intro op a hop
    have h := ih (get op) (a + 1) (hget op)
    simp only [pollGo, hop, Bool.false_eq_true, if_false]
    exact ⟨h.1, by omega⟩

theorem uploadOutcome_timeout {get : Operation → Operation} {op0 : Operation}
    (h : (pollLoop get op0 0).1.done = false) :
    uploadOutcome get op0 = Except.error timeoutMsg := by
  simp [uploadOutcome, h]

theorem uploadOutcome_done {get : Operation → Operation} {op0 : Operation}
    (h : (pollLoop get op0 0).1.done = true) :
    uploadOutcome get op0 =
      match (pollLoop get op0 0).1.error with
      | some msg => Except.error ("Gemini indexing failed: " ++ msg)
      | none => Except.ok (jsOrS (pollLoop get op0 0).1.responseName
          (jsOrS (pollLoop get op0 0).1.name "unknown")) := by
  simp [uploadOutcome, h]

theorem getOrCreateStep_cached {names : Nat → String} {st : RegistryState}
    {s : String} (h : st.cache = some s) :
    getOrCreateStep names st = (Except.ok s, st) := by
  simp [getOrCreateStep, h]

theorem getOrCreateStep_ok_cache {names : Nat → String} {st : RegistryState}
    {h : String} (hok : (getOrCreateStep names st).1 = Except.ok h) :
    (getOrCreateStep names st).2.cache = some h := by
  unfold getOrCreateStep at *
  cases hc : st.cache with
  | some s => simp [hc] at hok ⊢; exact hok
  | none =>
    cases ht : st.table with
    | some s => simp [hc, ht] at hok ⊢; exact hok
    | none =>
      by_cases hn : names st.createCalls = ""
      · simp [hc, ht, hn] at hok
      · simp [hc, ht, hn] at hok ⊢; exact hok

theorem getOrCreateStep_inv {names : Nat → String} (hn : ∀ k, names k ≠ "")
    {st : RegistryState} (hinv : st.cache = none → st.createCalls = 0) :
    ((getOrCreateStep names st).2.cache = none →
      (getOrCreateStep names st).2.createCalls = 0) ∧
    (st.createCalls ≤ 1 → (getOrCreateStep names st).2.createCalls ≤ 1) := by
  unfold getOrCreateStep
  cases hc : st.cache with
  | some s => exact ⟨hinv, fun h1 => h1⟩
  | none =>
    have h0 : st.createCalls = 0 := hinv hc
    cases ht : st.table with
    | some s => simp [h0]
    | none => simp [h0, hn 0]

theorem registryRun_inv {names : Nat → String} (hn : ∀ k, names k ≠ "") :
    ∀ (n : Nat) (st : RegistryState),
      (st.cache = none → st.createCalls = 0) → st.createCalls ≤ 1 →
      (registryRun names n st).2.createCalls ≤ 1 := by
  intro n
  induction n with
  | zero => intro st _ h1; simpa [registryRun] using h1
  | succ m ih =>
    intro st hinv h1
    have hstep := getOrCreateStep_inv hn hinv
    simpa [registryRun] using ih _ hstep.1 (hstep.2 h1)

theorem registryRun_cached {names : Nat → String} {h : String} :
    ∀ (n : Nat) (st : RegistryState), st.cache = some h →
      registryRun names n st = (List.replicate n (Except.ok h), st) := by
  intro n
  induction n with
  | zero => intro st _; simp [registryRun]
  | succ m ih =>
    intro st hc
    simp [registryRun, getOrCreateStep_cached hc, ih st hc, List.replicate_succ]

theorem registryRun_mono {names : Nat → String} :
    ∀ (n : Nat) (st : RegistryState) (i j : Nat) (h : String), i ≤ j → j < n →
      (registryRun names n st).1[i]? = some (Except.ok h) →
      (registryRun names n st).1[j]? = some (Except.ok h) := by
  intro n
  induction n with
  | zero => intro st i j h _ hj; omega
  | succ m ih =>
    intro st i j h hij hj hres
    cases i with
    | zero =>
      have hfst : (getOrCreateStep names st).1 = Except.ok h := by
        simpa [registryRun] using hres
      have hcache : (getOrCreateStep names st).2.cache = some h :=
        getOrCreateStep_ok_cache hfst
      have hrest := @registryRun_cached names h m _ hcache
      cases j with
      | zero => simpa [registryRun] using hres
      | succ j' =>
        have hj' : j' < m := by omega
        simp [registryRun, hrest, hfst, List.getElem?_replicate, hj']
    | succ i' =>
      cases j with
      | zero => omega
      | succ j' =>
        have hres' : (registryRun names m (getOrCreateStep names st).2).1[i']? =
            some (Except.ok h) := by
          simpa [registryRun] using hres
        have := ih (getOrCreateStep names st).2 i' j' h (by omega) (by omega) hres'
        simpa [registryRun] using this

theorem insertChunk_eq_update {docs : List Document} {acc : List CitEntry}
    {c : Chunk} {i : Nat}
    (h : acc.any (fun e => e.documentId == docIdOf docs c) = true) :
    insertChunk docs acc c i = acc.map (fun e =>
      if e.documentId == docIdOf docs c then
        { e with chunkIndices := e.chunkIndices ++ [i] } else e) := by
  simp [insertChunk, h]

theorem insertChunk_eq_append {docs : List Document} {acc : List CitEntry}
    {c : Chunk} {i : Nat}
    (h : acc.any (fun e => e.documentId == docIdOf docs c) = false) :
    insertChunk docs acc c i = acc ++
      [{ documentId := docIdOf docs c, title := citTitleOf docs c,
         snippet := citSnippetOf c, chunkIndices := [i] }] := by
  simp [insertChunk, h]

theorem insertChunk_preserves {docs : List Document} {acc : List CitEntry}
    {c : Chunk} {i : Nat} {e : CitEntry} (he : e ∈ acc) :
    ∃ e' ∈ insertChunk docs acc c i, e'.documentId = e.documentId ∧
      e'.title = e.title ∧ e'.snippet = e.snippet ∧
      ∀ k ∈ e.chunkIndices, k ∈ e'.chunkIndices := by
  cases h : acc.any (fun x => x.documentId == docIdOf docs c) with
  | true =>
    rw [insertChunk_eq_update h]
    by_cases hk : (e.documentId == docIdOf docs c) = true
    · refine ⟨{ e with chunkIndices := e.chunkIndices ++ [i] }, ?_, rfl, rfl, rfl, ?_⟩
      · exact List.mem_map.mpr ⟨e, he, by simp [hk]⟩
      · intro k hk2; simp [hk2]
    · have hk' : (e.documentId == docIdOf docs c) = false := by
        simpa using hk
      refine ⟨e, ?_, rfl, rfl, rfl, fun k hk2 => hk2⟩
      exact List.mem_map.mpr ⟨e, he, by simp [hk']⟩
  | false =>
    rw [insertChunk_eq_append h]
    exact ⟨e, List.mem_append_left _ he, rfl, rfl, rfl, fun k hk2 => hk2⟩

theorem resolveAux_preserves {docs : List Document} :
    ∀ (cs : List Chunk) (j : Nat) (acc : List CitEntry) (e : CitEntry), e ∈ acc →
      ∃ e' ∈ resolveAux docs cs j acc, e'.documentId = e.documentId ∧
        e'.title = e.title ∧ e'.snippet = e.snippet ∧
        ∀ k ∈ e.chunkIndices, k ∈ e'.chunkIndices := by
  intro cs
  induction cs with
  | nil => intro j acc e he; exact ⟨e, he, rfl, rfl, rfl, fun k hk => hk⟩
  | cons c rest ih =>
    intro j acc e he
    obtain ⟨e1, he1, hid1, ht1, hs1, hsub1⟩ :=
      @insertChunk_preserves docs acc c j e he
    obtain ⟨e2, he2, hid2, ht2, hs2, hsub2⟩ := ih (j + 1) _ e1 he1
    simp only [resolveAux]
    exact ⟨e2, he2, by rw [hid2, hid1], by rw [ht2, ht1], by rw [hs2, hs1],
      fun k hk => hsub2 k (hsub1 k hk)⟩

theorem insertChunk_key_mem (docs : List Document) (acc : List CitEntry)
    (c : Chunk) (i : Nat) :
    ∃ e ∈ insertChunk docs acc c i,
      e.documentId = docIdOf docs c ∧ i ∈ e.chunkIndices := by
  cases h : acc.any (fun x => x.documentId == docIdOf docs c) with
  | true =>
    rw [insertChunk_eq_update h]
    obtain ⟨e, he, hkey⟩ := List.any_eq_true.mp h
    refine ⟨{ e with chunkIndices := e.chunkIndices ++ [i] }, ?_, ?_, ?_⟩
    · exact List.mem_map.mpr ⟨e, he, by simp [hkey]⟩
    · simpa using hkey
    · simp
  | false =>
    rw [insertChunk_eq_append h]
    exact ⟨_, List.mem_append_right _ (List.mem_singleton_self _), rfl, by simp⟩

theorem resolveAux_mem_get {docs : List Document} :
    ∀ (cs : List Chunk) (j : Nat) (acc : List CitEntry) (k : Nat) (hk : k < cs.length),
      ∃ e ∈ resolveAux docs cs j acc,
        e.documentId = docIdOf docs (cs.get ⟨k, hk⟩) ∧ (j + k) ∈ e.chunkIndices := by
  intro cs
  induction cs with
  | nil => intro j acc k hk; exact absurd hk (by simp)
  | cons c rest ih =>
    intro j acc k hk
    cases k with
    | zero =>
      obtain ⟨e, he, hid, hmem⟩ := insertChunk_key_mem docs acc c j
      obtain ⟨e', he', hid', _, _, hsub⟩ := resolveAux_preserves rest (j + 1) _ e he
      show ∃ x ∈ resolveAux docs rest (j + 1) (insertChunk docs acc c j),
        x.documentId = docIdOf docs c ∧ (j + 0) ∈ x.chunkIndices
      exact ⟨e', he', by rw [hid', hid], by simpa using hsub j hmem⟩
    | succ k' =>
      have hk' : k' < rest.length := by simpa using hk
      obtain ⟨e, he, hid, hmem⟩ := ih (j + 1) (insertChunk docs acc c j) k' hk'
      simp only [resolveAux]
      refine ⟨e, he, hid, ?_⟩
      have harith : j + 1 + k' = j + (k' + 1) := by omega
      rwa [harith] at hmem

theorem keysOf_insertChunk_update {docs : List Document} {acc : List CitEntry}
    {c : Chunk} {i : Nat}
    (h : acc.any (fun e => e.documentId == docIdOf docs c) = true) :
    keysOf (insertChunk docs acc c i) = keysOf acc := by
  rw [insertChunk_eq_update h]
  simp only [keysOf, List.map_map]
  congr 1
  funext e
  cases hb : (e.documentId == docIdOf docs c) <;> simp [Function.comp, hb]

theorem keysOf_insertChunk_append {docs : List Document} {acc : List CitEntry}
    {c : Chunk} {i : Nat}
    (h : acc.any (fun e => e.documentId == docIdOf docs c) = false) :
    keysOf (insertChunk docs acc c i) = keysOf acc ++ [docIdOf docs c] := by
  rw [insertChunk_eq_append h]
  simp [keysOf]

theorem keysOf_insertChunk_nodup {docs : List Document} {acc : List CitEntry}
    {c : Chunk} {i : Nat} (h : (keysOf acc).Nodup) :
    (keysOf (insertChunk docs acc c i)).Nodup := by
  cases hany : acc.any (fun x => x.documentId == docIdOf docs c) with
  | true => rw [keysOf_insertChunk_update hany]; exact h
  | false =>
    rw [keysOf_insertChunk_append hany, List.nodup_append]
    refine ⟨h, List.nodup_singleton _, ?_⟩
    intro a ha hb
    rw [List.mem_singleton] at hb
    subst hb
    rw [keysOf, List.mem_map] at ha
    obtain ⟨e, he, heq⟩ := ha
    have hne := List.any_eq_false.mp hany e he
    simp [heq] at hne

theorem resolveAux_keys_nodup {docs : List Document} :
    ∀ (cs : List Chunk) (j : Nat) (acc : List CitEntry), (keysOf acc).Nodup →
      (keysOf (resolveAux docs cs j acc)).Nodup := by
  intro cs
  induction cs with
  | nil => intro j acc h; exact h
  | cons c rest ih =>
    intro j acc h
    exact ih (j + 1) _ (keysOf_insertChunk_nodup h)

theorem resolveCitations_keys_nodup (docs : List Document) (frags : List Chunk) :
    (keysOf (resolveCitations docs frags)).Nodup :=
  resolveAux_keys_nodup frags 0 [] (by simp [keysOf])

theorem nodup_keys_eq {es : List CitEntry} (h : (keysOf es).Nodup) :
    ∀ e1 ∈ es, ∀ e2 ∈ es, e1.documentId = e2.documentId → e1 = e2 := by
  induction es with
  | nil => intro e1 h1; simp at h1
  | cons e es ih =>
    simp only [keysOf, List.map_cons, List.nodup_cons] at h
    intro e1 h1 e2 h2 heq
    rcases List.mem_cons.mp h1 with rfl | h1' <;>
      rcases List.mem_cons.mp h2 with rfl | h2'
    · rfl
    · exact absurd (heq ▸ List.mem_map_of_mem (fun x => x.documentId) h2') h.1
    · exact absurd (heq ▸ List.mem_map_of_mem (fun x => x.documentId) h1') h.1
    · exact ih h.2 e1 h1' e2 h2' heq

theorem insertChunk_key_sub {docs : List Document} {acc : List CitEntry}
    {c : Chunk} {i : Nat} {e' : CitEntry} (h : e' ∈ insertChunk docs acc c i) :
    (∃ e ∈ acc, e'.documentId = e.documentId) ∨ e'.documentId = docIdOf docs c := by
  cases hany : acc.any (fun x => x.documentId == docIdOf docs c) with
  | true =>
    rw [insertChunk_eq_update hany] at h
    obtain ⟨e, he, hfe⟩ := List.mem_map.mp h
    left
    refine ⟨e, he, ?_⟩
    cases hb : (e.documentId == docIdOf docs c) <;> simp [hb] at hfe <;>
      rw [← hfe]
  | false =>
    rw [insertChunk_eq_append hany] at h
    rcases List.mem_append.mp h with h1 | h2
    · exact Or.inl ⟨e', h1, rfl⟩
    · rw [List.mem_singleton] at h2
      subst h2
      exact Or.inr rfl

theorem insertChunk_new_entry_mem {docs : List Document} {acc : List CitEntry}
    {c : Chunk} {i : Nat}
    (h : acc.any (fun e => e.documentId == docIdOf docs c) = false) :
    ({ documentId := docIdOf docs c, title := citTitleOf docs c,
       snippet := citSnippetOf c, chunkIndices := [i] } : CitEntry) ∈
      insertChunk docs acc c i := by
  rw [insertChunk_eq_append h]
  exact List.mem_append_right _ (List.mem_singleton_self _)

theorem resolveAux_first_entry {docs : List Document} :
    ∀ (cs : List Chunk) (j : Nat) (acc : List CitEntry) (K : String) (i : Nat)
      (hi : i < cs.length),
      (∀ e ∈ acc, e.documentId ≠ K) →
      docIdOf docs (cs.get ⟨i, hi⟩) = K →
      (∀ l (hl : l < i), docIdOf docs (cs.get ⟨l, Nat.lt_trans hl hi⟩) ≠ K) →
      ∃ e ∈ resolveAux docs cs j acc, e.documentId = K ∧
        e.title = citTitleOf docs (cs.get ⟨i, hi⟩) ∧
        e.snippet = citSnippetOf (cs.get ⟨i, hi⟩) ∧ (j + i) ∈ e.chunkIndices := by
  intro cs
  induction cs with
  | nil => intro j acc K i hi; exact absurd hi (by simp)
  | cons c rest ih =>
    intro j acc K i hi hacc hKi hfirst
    cases i with
    | zero =>
      have hc : docIdOf docs c = K := hKi
      have hany : acc.any (fun x => x.documentId == docIdOf docs c) = false := by
        rw [List.any_eq_false]
        intro x hx
        simp [hc, hacc x hx]
      obtain ⟨e', he', hid, ht, hs, hsub⟩ :=
        resolveAux_preserves rest (j + 1) _ _ (insertChunk_new_entry_mem (i := j) hany)
      show ∃ x ∈ resolveAux docs rest (j + 1) (insertChunk docs acc c j),
        x.documentId = K ∧ x.title = citTitleOf docs c ∧
        x.snippet = citSnippetOf c ∧ (j + 0) ∈ x.chunkIndices
      refine ⟨e', he', by rw [← hc]; exact hid, ht, hs, ?_⟩
      simpa using hsub j (by simp)
    | succ l =>
      have hc_ne : docIdOf docs c ≠ K := hfirst 0 (Nat.succ_pos l)
      have hacc' : ∀ e ∈ insertChunk docs acc c j, e.documentId ≠ K := by
        intro e he
        rcases insertChunk_key_sub he with ⟨e0, he0, heq⟩ | heq
        · rw [heq]; exact hacc e0 he0
        · rw [heq]; exact hc_ne
      have hi' : l < rest.length := by simpa using hi
      have hfirst' : ∀ l' (hl' : l' < l),
          docIdOf docs (rest.get ⟨l', Nat.lt_trans hl' hi'⟩) ≠ K :=
        fun l' hl' => hfirst (l' + 1) (by omega)
      obtain ⟨e, he, h1, h2, h3, h4⟩ := ih (j + 1) _ K l hi' hacc' hKi hfirst'
      simp only [resolveAux]
      refine ⟨e, he, h1, h2, h3, ?_⟩
      have harith : j + 1 + l = j + (l + 1) := by omega
      rwa [harith] at h4

theorem remapAux_isSome :
    ∀ (es : List CitEntry) (k : Nat) (e : CitEntry), e ∈ es → k ∈ e.chunkIndices →
      ∀ pos, (remapAux es k pos).isSome = true := by
  intro es
  induction es with
  | nil => intro k e he; simp at he
  | cons e' es ih =>
    intro k e he hk pos
    by_cases hmem : k ∈ e'.chunkIndices
    · simp [remapAux, hmem]
    · rcases List.mem_cons.mp he with rfl | he2
      · exact absurd hk hmem
      · simp only [remapAux, hmem, if_false]
        exact ih k e he2 hk (pos + 1)

theorem timeoutMsg_ne_failed (m : String) :
    timeoutMsg ≠ "Gemini indexing failed: " ++ m := by
  intro h
  have hd : timeoutMsg.data.take 17 = ("Gemini indexing failed: " ++ m).data.take 17 :=
    congrArg (fun s => s.data.take 17) h
  rw [String.data_append, List.take_append_of_le_length (by decide)] at hd
  exact absurd hd (by decide)

/-! ## Claim theorems -/

/-- Claim C2: for every grounding fragment the matched document is determined
by the strict priority order — (1) exact retrieval-handle match, (2) exact
case-sensitive title match when the fragment carries a title, (3)
case-insensitive title match, (4) title match after stripping a trailing
`.pdf`/`.doc`/`.docx`/`.txt` suffix (case-insensitively) from both sides —
stopping at the first success; in particular a document titled
"Leave Policy" matches a fragment titled "Leave Policy.DOCX". -/
theorem c2_match_priority :
    (∀ (docs : List Document) (fid t : String),
      findMatchedDoc docs fid t = specFirstMatch docs fid t) ∧
    findMatchedDoc [leaveDoc] "" "Leave Policy.DOCX" = some leaveDoc := by
  constructor
  · intro docs fid t
    unfold findMatchedDoc specFirstMatch specHandleMatch specExactTitleMatch
      specCiTitleMatch specExtTitleMatch
    cases h1 : docs.find? (fun d => d.geminiDocumentId == some fid) with
    | some d => rfl
    | none =>
      by_cases ht : t = ""
      · simp [ht]
      · simp only [if_neg ht]
  · decide

/-- Claim C3: a pollable ingest operation that never reports done is polled
exactly 60 times (at the fixed 5000 ms interval) and then fails with the
distinct timeout message; an operation that completes with an error payload
fails propagating the service-reported message; a completed operation
without an error payload never fails. -/
theorem c3_poll_ceiling (get : Operation → Operation) (op0 : Operation) :
    (op0.done = false → (∀ o, (get o).done = false) →
      (pollLoop get op0 0).2 = 60 ∧ uploadOutcome get op0 = Except.error timeoutMsg) ∧
    (∀ m, (pollLoop get op0 0).1.done = true → (pollLoop get op0 0).1.error = some m →
      uploadOutcome get op0 = Except.error ("Gemini indexing failed: " ++ m)) ∧
    ((pollLoop get op0 0).1.done = true → (pollLoop get op0 0).1.error = none →
      ∃ s, uploadOutcome get op0 = Except.ok s) ∧
    (∀ m, timeoutMsg ≠ "Gemini indexing failed: " ++ m) ∧
    maxAttempts = 60 ∧ pollIntervalMs = 5000 := by
  refine ⟨?_, ?_, ?_, timeoutMsg_ne_failed, rfl, rfl⟩
  · intro h0 hget
    have h := pollGo_never_done hget 60 op0 0 h0
    constructor
    · simpa [pollLoop, maxAttempts] using h.2
    · exact uploadOutcome_timeout (by simpa [pollLoop, maxAttempts] using h.1)
  · intro m hd he
    rw [uploadOutcome_done hd, he]
  · intro hd he
    exact ⟨_, by rw [uploadOutcome_done hd, he]⟩

/-- Witness for C3 at concrete operations: a never-done operation yields 60
polls and the timeout error, an errored completion propagates the service
message, and a clean completion succeeds. -/
theorem c3_poll_ceiling_witness :
    ((pollLoop (fun _ => opPending) opPending 0).2 = 60 ∧
      uploadOutcome (fun _ => opPending) opPending = Except.error timeoutMsg) ∧
    uploadOutcome (fun _ => opErrored) opPending =
      Except.error ("Gemini indexing failed: " ++ "service says no") ∧
    (∃ s, uploadOutcome (fun _ => opDoneNameless) opPending = Except.ok s) := by
  refine ⟨(c3_poll_ceiling (fun _ => opPending) opPending).1 rfl (fun _ => rfl), ?_, ?_⟩
  · exact (c3_poll_ceiling (fun _ => opErrored) opPending).2.1 "service says no"
      (by decide) (by decide)
  · exact (c3_poll_ceiling (fun _ => opDoneNameless) opPending).2.2.1
      (by decide) (by decide)

/-- Claim C6: over any sequence of store-registry calls in one process
(starting from an empty in-memory cache), assuming the service returns a
usable handle on creation, the store-creation call succeeds at most once,
and once a call has returned a handle every later call returns that same
handle. -/
theorem c6_single_store_creation (names : Nat → String) (table0 : Option String)
    (n : Nat) (hnames : ∀ k, names k ≠ "") :
    (registryRun names n { cache := none, table := table0, createCalls := 0 }).2.createCalls ≤ 1 ∧
    (∀ i j h, i ≤ j → j < n →
      (registryRun names n { cache := none, table := table0, createCalls := 0 }).1[i]? =
        some (Except.ok h) →
      (registryRun names n { cache := none, table := table0, createCalls := 0 }).1[j]? =
        some (Except.ok h)) := by
  constructor
  · exact registryRun_inv hnames n _ (fun _ => rfl) (Nat.zero_le 1)
  · intro i j h hij hj hres
    exact registryRun_mono n _ i j h hij hj hres

/-- Witness for C6: three fresh-process calls create at most one store and
the third call returns the handle the first call obtained. -/
theorem c6_single_store_creation_witness :
    (registryRun (fun _ => "fileSearchStores/s1") 3
      { cache := none, table := none, createCalls := 0 }).2.createCalls ≤ 1 ∧
    (registryRun (fun _ => "fileSearchStores/s1") 3
      { cache := none, table := none, createCalls := 0 }).1[2]? =
      some (Except.ok "fileSearchStores/s1") := by
  have h := c6_single_store_creation (fun _ => "fileSearchStores/s1") none 3
    (fun k => by show "fileSearchStores/s1" ≠ ""; decide)
  exact ⟨h.1, h.2 0 2 "fileSearchStores/s1" (by omega) (by omega) (by rfl)⟩

/-- Claim C7: the blob delete is `deleteIfExists` and so total (no error on a
missing blob), the retrieval-service delete swallows every failure, and for
any service behaviour the crud delete of an existing record always reaches
the metadata-record deletion. -/
theorem c7_idempotent_delete (svc : String → Except String Unit)
    (blobs : List String) (name : String) (st : Stores) (id : String)
    (doc : Document) (hfind : st.table.find? (fun d => d.id == id) = some doc) :
    azureDeleteDocument blobs name = Except.ok (blobs.filter (fun b => b != name)) ∧
    deleteDocumentFromGemini svc name = Except.ok () ∧
    deleteDocumentCrud svc st id =
      Except.ok { blobs := st.blobs.filter (fun b => b != doc.blobName),
                  table := st.table.filter (fun d => d.id != id) } := by
  refine ⟨rfl, ?_, ?_⟩
  · unfold deleteDocumentFromGemini
    cases svc name <;> rfl
  · simp only [deleteDocumentCrud, hfind, azureDeleteDocument]
    cases hg : jsTruthy doc.geminiDocumentId
    · simp [hg]
    · simp only [hg, if_true]
      unfold deleteDocumentFromGemini
      cases svc ((doc.geminiDocumentId).getD "") <;> simp

/-- Witness for C7: deleting an absent blob succeeds, a failing service
delete is swallowed, and the crud delete removes the metadata record even
when every retrieval-service call fails. -/
theorem c7_idempotent_delete_witness :
    azureDeleteDocument [] "nope" = Except.ok [] ∧
    deleteDocumentFromGemini (fun _ => Except.error "boom") "nope" = Except.ok () ∧
    deleteDocumentCrud (fun _ => Except.error "boom")
      { blobs := [], table := [leaveDoc] } "1" =
      Except.ok { blobs := [], table := [] } := by
  have h := c7_idempotent_delete (fun _ => Except.error "boom") [] "nope"
    { blobs := [], table := [leaveDoc] } "1" leaveDoc (by decide)
  exact ⟨h.1, h.2.1, h.2.2⟩

/-- Claim C8 counterexample: the claim maps an absent suffix to
`application/octet-stream`, but for the dot-less file name "pdf" the code
takes the whole name as the extension and returns `application/pdf`. -/
theorem c8_mime_counterexample :
    specSuffix "pdf" = none ∧
    specMimeOfSuffix (specSuffix "pdf") = "application/octet-stream" ∧
    getMimeType "pdf" = "application/pdf" ∧
    getMimeType "pdf" ≠ specMimeOfSuffix (specSuffix "pdf") := by
  refine ⟨by decide, by decide, by decide, by decide⟩

/-- Claim C8 (amended): the content type is determined from the last
dot-separated segment of the file name (the whole name when it contains no
dot), compared case-insensitively against the closed mapping pdf/docx/doc/txt
with default `application/octet-stream`. -/
theorem c8_mime_amended :
    ∀ fileName, getMimeType fileName = amendedMimeOf fileName := by
  intro f
  simp only [getMimeType, amendedMimeOf, mimeTable, List.lookup]
  by_cases h1 : toLowerStr (lastDotSegment f) = "pdf"
  · simp [h1]
  · have b1 : (toLowerStr (lastDotSegment f) == "pdf") = false :=
      beq_eq_false_iff_ne.mpr h1
    by_cases h2 : toLowerStr (lastDotSegment f) = "docx"
    · simp [h2, b1]
    · have b2 : (toLowerStr (lastDotSegment f) == "docx") = false :=
        beq_eq_false_iff_ne.mpr h2
      by_cases h3 : toLowerStr (lastDotSegment f) = "doc"
      · simp [h3, b1, b2]
      · have b3 : (toLowerStr (lastDotSegment f) == "doc") = false :=
          beq_eq_false_iff_ne.mpr h3
        by_cases h4 : toLowerStr (lastDotSegment f) = "txt"
        · simp [h4, b1, b2, b3]
        · have b4 : (toLowerStr (lastDotSegment f) == "txt") = false :=
            beq_eq_false_iff_ne.mpr h4
          simp [h1, h2, h3, h4, b1, b2, b3, b4]

/-- Claim C9: when the poll loop completes with done and no error payload and
neither the response nor the operation carries a (truthy) name, the upload
still succeeds with the literal handle "unknown" and the document is marked
ready with that value. -/
theorem c9_unknown_handle (get : Operation → Operation) (op0 : Operation)
    (storeName : String) (doc : Document)
    (hd : (pollLoop get op0 0).1.done = true)
    (he : (pollLoop get op0 0).1.error = none)
    (hr : jsTruthy (pollLoop get op0 0).1.responseName = false)
    (hn : jsTruthy (pollLoop get op0 0).1.name = false) :
    uploadOutcome get op0 = Except.ok "unknown" ∧
    (ingestFinal get op0 storeName doc).status = DocStatus.ready ∧
    (ingestFinal get op0 storeName doc).geminiDocumentId = some "unknown" := by
  have hok : uploadOutcome get op0 = Except.ok "unknown" := by
    simp only [uploadOutcome_done hd, he]
    rw [jsOrS_of_not_truthy hr, jsOrS_of_not_truthy hn]
  refine ⟨hok, ?_, ?_⟩ <;> simp [ingestFinal, hok]

/-- Witness for C9: a first poll returning done with empty name fields yields
the handle "unknown" and a ready document carrying it. -/
theorem c9_unknown_handle_witness :
    uploadOutcome (fun _ => opDoneNameless) opPending = Except.ok "unknown" ∧
    (ingestFinal (fun _ => opDoneNameless) opPending "store" leaveDoc).status =
      DocStatus.ready ∧
    (ingestFinal (fun _ => opDoneNameless) opPending "store" leaveDoc).geminiDocumentId =
      some "unknown" :=
  c9_unknown_handle _ _ _ _ (by decide) (by decide) (by decide) (by decide)

/-- Claim C4 counterexample: the PATCH `/api/documents/[id]` route is an
exposed operation that moves a `ready` document to `failed` (it validates
only membership of the requested status, never the current one). -/
theorem c4_monotonic_counterexample :
    leaveDoc.status = DocStatus.ready ∧
    patchDocument [leaveDoc] "1" (some "failed") none =
      PatchResult.ok [leaveDocFailed] leaveDocFailed ∧
    leaveDocFailed.id = leaveDoc.id ∧
    leaveDocFailed.status = DocStatus.failed := by
  refine ⟨rfl, by decide, rfl, rfl⟩

/-- Claim C4 (amended): the ingest pipeline itself drives a document through
exactly `processing` then `ready`, or `processing` then `failed`; but the
PATCH endpoint sets any of the three valid statuses unconditionally,
regardless of the document's current status. -/
theorem c4_monotonic_amended (get : Operation → Operation) (op0 : Operation)
    (storeName : String) (doc : Document) (table : List Document) (id : String)
    (em : Option String) (s : DocStatus) :
    (ingestStatusTrace get op0 storeName doc =
        [DocStatus.processing, DocStatus.ready] ∨
      ingestStatusTrace get op0 storeName doc =
        [DocStatus.processing, DocStatus.failed]) ∧
    (∀ t d, patchDocument table id (some (statusToString s)) em = PatchResult.ok t d →
      d.status = s) := by
  constructor
  · unfold ingestStatusTrace ingestFinal
    cases uploadOutcome get op0 <;> simp
  · intro t d hp
    have hps : parseStatus (statusToString s) = some s := by cases s <;> rfl
    simp only [patchDocument, hps, updateDocumentStatus] at hp
    cases hf : table.find? (fun d0 => d0.id == id) with
    | none => rw [hf] at hp; simp at hp
    | some d0 =>
      rw [hf] at hp
      have hd := (PatchResult.ok.inj hp).2
      subst hd
      rfl

/-- Witness for C4 (amended): a concrete successful ingest trace, and a
concrete PATCH that moves a ready document to failed. -/
theorem c4_monotonic_amended_witness :
    (ingestStatusTrace (fun _ => opDoneNameless) opPending "store" leaveDoc =
        [DocStatus.processing, DocStatus.ready] ∨
      ingestStatusTrace (fun _ => opDoneNameless) opPending "store" leaveDoc =
        [DocStatus.processing, DocStatus.failed]) ∧
    leaveDocFailed.status = DocStatus.failed := by
  have h := c4_monotonic_amended (fun _ => opDoneNameless) opPending "store"
    leaveDoc [leaveDoc] "1" none DocStatus.failed
  exact ⟨h.1, h.2 [leaveDocFailed] leaveDocFailed (by decide)⟩

/-- Claim C5: a fragment that matches no document under all four strategies
still yields a citation entry keyed by its raw external reference string,
and no fragment position is missing from the remap. -/
theorem c5_unresolved_preserved (docs : List Document) (frags : List Chunk)
    (k : Nat) (hk : k < frags.length)
    (hnm : findMatchedDoc docs (geminiFileId (frags.get ⟨k, hk⟩))
      (chunkTitle (frags.get ⟨k, hk⟩)) = none) :
    (∃ e ∈ resolveCitations docs frags,
      e.documentId = geminiFileId (frags.get ⟨k, hk⟩) ∧ k ∈ e.chunkIndices) ∧
    (∀ k' (hk' : k' < frags.length), (chunkToCitation docs frags k').isSome = true) := by
  constructor
  · obtain ⟨e, he, hid, hmem⟩ := resolveAux_mem_get frags 0 [] k hk
    refine ⟨e, he, ?_, by simpa using hmem⟩
    rw [hid, docIdOf_of_no_match hnm]
  · intro k' hk'
    obtain ⟨e, he, _, hmem⟩ := resolveAux_mem_get frags 0 [] k' hk'
    exact remapAux_isSome _ k' e he (by simpa using hmem) 1

/-- Witness for C5: a single fragment with no reference fields at all still
produces a citation entry and a remap entry. -/
theorem c5_unresolved_preserved_witness :
    (∃ e ∈ resolveCitations [] [chunkBlank],
      e.documentId = geminiFileId chunkBlank ∧ 0 ∈ e.chunkIndices) ∧
    (chunkToCitation [] [chunkBlank] 0).isSome = true := by
  have h := c5_unresolved_preserved [] [chunkBlank] 0 (by decide) (by decide)
  exact ⟨h.1, h.2 0 (by decide)⟩

/-- Claim C10: unresolved fragments carrying the same raw reference string
collapse into a single citation entry keyed by that string, whose title and
snippet come from the first such fragment; fragments with all reference
fields absent fall back to the empty-string key. -/
theorem c10_unresolved_dedup (docs : List Document) (frags : List Chunk)
    (i j : Nat) (hi : i < frags.length) (hj : j < frags.length) (hij : i < j)
    (hnmi : findMatchedDoc docs (geminiFileId (frags.get ⟨i, hi⟩))
      (chunkTitle (frags.get ⟨i, hi⟩)) = none)
    (hnmj : findMatchedDoc docs (geminiFileId (frags.get ⟨j, hj⟩))
      (chunkTitle (frags.get ⟨j, hj⟩)) = none)
    (hsame : geminiFileId (frags.get ⟨j, hj⟩) = geminiFileId (frags.get ⟨i, hi⟩))
    (hfirst : ∀ l (hl : l < i), docIdOf docs (frags.get ⟨l, Nat.lt_trans hl hi⟩) ≠
      geminiFileId (frags.get ⟨i, hi⟩)) :
    (∃ e ∈ resolveCitations docs frags,
      e.documentId = geminiFileId (frags.get ⟨i, hi⟩) ∧
      i ∈ e.chunkIndices ∧ j ∈ e.chunkIndices ∧
      e.title = citTitleOf docs (frags.get ⟨i, hi⟩) ∧
      e.snippet = citSnippetOf (frags.get ⟨i, hi⟩)) ∧
    (∀ e1 ∈ resolveCitations docs frags, ∀ e2 ∈ resolveCitations docs frags,
      e1.documentId = e2.documentId → e1 = e2) ∧
    (∀ c : Chunk, c.webUri = none → c.retrievedContextUri = none →
      c.webUrl = none → c.retrievedContextUrl = none → geminiFileId c = "") := by
  have hKi : docIdOf docs (frags.get ⟨i, hi⟩) = geminiFileId (frags.get ⟨i, hi⟩) :=
    docIdOf_of_no_match hnmi
  obtain ⟨e1, he1, h1, ht, hs, hmem_i⟩ :=
    resolveAux_first_entry frags 0 [] (geminiFileId (frags.get ⟨i, hi⟩)) i hi
      (by simp) hKi hfirst
  obtain ⟨e2, he2, h2, hmem_j⟩ := resolveAux_mem_get frags 0 [] j hj
  have h2K : e2.documentId = geminiFileId (frags.get ⟨i, hi⟩) := by
    rw [h2, docIdOf_of_no_match hnmj, hsame]
  have huniq := nodup_keys_eq (resolveCitations_keys_nodup docs frags)
  have he12 : e1 = e2 := huniq e1 he1 e2 he2 (by rw [h1, h2K])
  refine ⟨⟨e1, he1, h1, by simpa using hmem_i, ?_, ht, hs⟩,
    fun a ha b hb hab => huniq a ha b hb hab, ?_⟩
  · rw [he12]; simpa using hmem_j
  · intro c hc1 hc2 hc3 hc4
    simp [geminiFileId, hc1, hc2, hc3, hc4, jsOrS]

/-- Witness for C10: two fragments with every reference field absent share
the single empty-string-keyed citation entry. -/
theorem c10_unresolved_dedup_witness :
    ∃ e ∈ resolveCitations [] [chunkBlank, chunkBlank],
      e.documentId = "" ∧ 0 ∈ e.chunkIndices ∧ 1 ∈ e.chunkIndices := by
  have h := c10_unresolved_dedup [] [chunkBlank, chunkBlank] 0 1 (by decide)
    (by decide) (by decide) (by decide) (by decide) rfl
    (fun l hl => absurd hl (Nat.not_lt_zero l))
  obtain ⟨⟨e, he, hid, h0, h1, _, _⟩, _, _⟩ := h
  exact ⟨e, he, hid.trans rfl, h0, h1⟩

/-- Claim C1: for every five-fragment list whose positions 0, 2, 4 resolve to
document id A and positions 1, 3 to document id B (with A appearing first and
distinct from B), the resolution yields exactly two citations keyed [A, B] in
order of first appearance, and the remap sends 0, 2, 4 to citation 1 and
1, 3 to citation 2. -/
theorem c1_dedup_remap (docs : List Document) (c0 c1 c2 c3 c4 : Chunk)
    (A B : String) (hAB : A ≠ B)
    (h0 : docIdOf docs c0 = A) (h1 : docIdOf docs c1 = B)
    (h2 : docIdOf docs c2 = A) (h3 : docIdOf docs c3 = B)
    (h4 : docIdOf docs c4 = A) :
    (resolveCitations docs [c0, c1, c2, c3, c4]).length = 2 ∧
    keysOf (resolveCitations docs [c0, c1, c2, c3, c4]) = [A, B] ∧
    chunkToCitation docs [c0, c1, c2, c3, c4] 0 = some 1 ∧
    chunkToCitation docs [c0, c1, c2, c3, c4] 2 = some 1 ∧
    chunkToCitation docs [c0, c1, c2, c3, c4] 4 = some 1 ∧
    chunkToCitation docs [c0, c1, c2, c3, c4] 1 = some 2 ∧
    chunkToCitation docs [c0, c1, c2, c3, c4] 3 = some 2 := by
  have hABb : (A == B) = false := beq_eq_false_iff_ne.mpr hAB
  have hBAb : (B == A) = false := beq_eq_false_iff_ne.mpr (Ne.symm hAB)
  have hr : resolveCitations docs [c0, c1, c2, c3, c4] =
      [{ documentId := A, title := citTitleOf docs c0, snippet := citSnippetOf c0,
         chunkIndices := [0, 2, 4] },
       { documentId := B, title := citTitleOf docs c1, snippet := citSnippetOf c1,
         chunkIndices := [1, 3] }] := by
    simp [resolveCitations, resolveAux, insertChunk, h0, h1, h2, h3, h4,
      hAB, Ne.symm hAB, hABb, hBAb]
  have hr2 : resolveAux docs [c0, c1, c2, c3, c4] 0 [] =
      [{ documentId := A, title := citTitleOf docs c0, snippet := citSnippetOf c0,
         chunkIndices := [0, 2, 4] },
       { documentId := B, title := citTitleOf docs c1, snippet := citSnippetOf c1,
         chunkIndices := [1, 3] }] := hr
  refine ⟨?_, ?_, ?_, ?_, ?_, ?_, ?_⟩ <;>
    simp [hr2, keysOf, chunkToCitation, resolveCitations, remapAux]

/-- Witness for C1: five concrete fragments referencing uris A, B, A, B, A
against an empty document list. -/
theorem c1_dedup_remap_witness :
    (resolveCitations [] [chunkA, chunkB, chunkA, chunkB, chunkA]).length = 2 ∧
    keysOf (resolveCitations [] [chunkA, chunkB, chunkA, chunkB, chunkA]) = ["A", "B"] ∧
    chunkToCitation [] [chunkA, chunkB, chunkA, chunkB, chunkA] 0 = some 1 ∧
    chunkToCitation [] [chunkA, chunkB, chunkA, chunkB, chunkA] 2 = some 1 ∧
    chunkToCitation [] [chunkA, chunkB, chunkA, chunkB, chunkA] 4 = some 1 ∧
    chunkToCitation [] [chunkA, chunkB, chunkA, chunkB, chunkA] 1 = some 2 ∧
    chunkToCitation [] [chunkA, chunkB, chunkA, chunkB, chunkA] 3 = some 2 :=
  c1_dedup_remap [] chunkA chunkB chunkA chunkB chunkA "A" "B"
    (by decide) rfl rfl rfl rfl rfl

end PgcPlus
